import Mathlib

/-!
Verification of the `preserve` digital-preservation utilities, a shallow
embedding of `src/preserve/preserve.py`.

Modelling conventions:
* Python strings are `String`; paths are plain strings (POSIX separators).
* The filesystem seen by `os.walk` is an `Entry` tree; a root path that does
  not exist resolves to `none`.
* `csv` rows are `Row` structures holding the string values of the seven
  fixed columns (ints are rendered with `toString`, as `str()` does when the
  `csv` module writes them).
* Python's ordered `dict` is an association list `List (String × Row)` with
  insert-or-overwrite (`dictInsert`).
* Exceptions are `Except`/`Option` results; an uncaught exception in the
  per-file loop is reported in `InvResult.err`.
-/

/-- Python `name.startswith('.')`, used by `list_files` to prune hidden
directories and files. -/
def hiddenName (n : String) : Bool := n.data.head? == some '.'

/-- One entry of a directory listing as traversed by `os.walk`: a regular
file, or a sub-directory with its own listing.  The list order models the
(deterministic within one run) order in which `os.walk` reports names. -/
inductive Entry : Type where
  | file : String → Entry
  | dir : String → List Entry → Entry

mutual

/-- The file paths contributed by the directory at path `root` with listing
`es`: its own non-hidden files first (`os.path.join(root, f)` for `f` in the
pruned `files` list), then the files found by recursing into the pruned
sub-directories, in listing order.  This is `os.walk`'s top-down order as
consumed by `list_files`. -/
def filesUnder (root : String) (es : List Entry) : List String :=
  dirFiles root es ++ subdirFiles root es

/-- The non-hidden regular files directly inside the listing `es`, joined to
`root` (the `files[:] = [f for f in files if not f.startswith('.')]` pruning
followed by `os.path.join(root, f)`). -/
def dirFiles (root : String) : List Entry → List String
  | [] => []
  | Entry.file n :: rest =>
      (if hiddenName n then [] else [root ++ "/" ++ n]) ++ dirFiles root rest
  | Entry.dir _ _ :: rest => dirFiles root rest

/-- The files found by walking into each non-hidden sub-directory of `es`
(the `dirs[:] = [d for d in dirs if not d.startswith('.')]` pruning). -/
def subdirFiles (root : String) : List Entry → List String
  | [] => []
  | Entry.file _ :: rest => subdirFiles root rest
  | Entry.dir n cs :: rest =>
      (if hiddenName n then []
       else dirFiles (root ++ "/" ++ n) cs ++ subdirFiles (root ++ "/" ++ n) cs)
      ++ subdirFiles root rest

end

/-- `list_files(path)` from `preserve.py` (identical in `utils.py`): walk the
tree under `path`, pruning dot-names.  `os.walk` is invoked with the default
`onerror=None`, so a root that does not exist (`fs = none`) produces no
iterations at all and the function returns the empty list rather than
raising. -/
def list_files (fs : Option (List Entry)) (root : String) : List String :=
  match fs with
  | none => []
  | some es => filesUnder root es

/-- `os.path.basename`: the part of the path after the final slash. -/
def basenameOf (p : String) : String :=
  String.mk ((p.data.reverse.takeWhile (fun c => c ≠ '/')).reverse)

/-- `os.path.dirname`: everything up to the final slash, with trailing
slashes stripped unless the head consists only of slashes. -/
def dirnameOf (p : String) : String :=
  let head := ((p.data.reverse.dropWhile (fun c => c ≠ '/')).reverse)
  if head.all (fun c => c = '/') then String.mk head
  else String.mk ((head.reverse.dropWhile (fun c => c = '/')).reverse)

/-- `os.path.join(a, b)` (POSIX, two arguments). -/
def joinPath (a b : String) : String :=
  if b.data.head? == some '/' then b
  else if a = "" || (a.data.getLast? == some '/') then a ++ b
  else a ++ "/" ++ b

/-- `os.path.splitext(p)[1].lstrip('.')`: the extension of the path's
basename without its dot, empty when the basename has no dot or only leading
dots before the last dot. -/
def extensionOf (p : String) : String :=
  let b := p.data.reverse.takeWhile (fun c => c ≠ '/')
  let afterDot := b.takeWhile (fun c => c ≠ '.')
  if afterDot.length = b.length then ""
  else
    let beforeDot := b.drop (afterDot.length + 1)
    if beforeDot.all (fun c => c = '.') then ""
    else String.mk afterDot.reverse

/-- Python `str.upper()` (ASCII range, which is all the tool relies on). -/
def upperStr (s : String) : String := String.mk (s.data.map Char.toUpper)

/-- The filesystem metadata the `inventory` loop reads for one path:
`int(os.path.getmtime(f))`, its `strftime('%Y-%m-%dT%H:%M:%S')` rendering
(carried as an opaque-but-fixed string since it is a pure function of
`mtime`), `os.path.getsize(f)` and `md5sum(f)`. -/
structure FStat where
  mtime : Nat
  moddate : String
  bytes : Nat
  md5 : String
deriving Repr, DecidableEq

/-- One CSV data row of an inventory, holding the string values of the seven
columns `Directory, Filename, Extension, Bytes, MTime, Moddate, MD5`. -/
structure Row where
  directory : String
  filename : String
  extension : String
  bytes : String
  mtime : String
  moddate : String
  md5 : String
deriving Repr, DecidableEq

/-- The `metadata` dict built for a freshly checked file `f` in the
`inventory` loop. -/
def freshRow (f : String) (st : FStat) : Row :=
  { directory := dirnameOf f
  , filename := basenameOf f
  , extension := upperStr (extensionOf f)
  , bytes := toString st.bytes
  , mtime := toString st.mtime
  , moddate := st.moddate
  , md5 := st.md5 }

/-- The key under which `read_inventory` stores a row:
`os.path.join(row['Directory'], row['Filename'])`. -/
def rowKey (r : Row) : String := joinPath r.directory r.filename

/-- Assignment `result[filepath] = row` on a Python (insertion-ordered)
dict: overwrite in place when the key is present, append otherwise. -/
def dictInsert (d : List (String × Row)) (k : String) (v : Row) :
    List (String × Row) :=
  if d.any (fun p => p.1 = k) then
    d.map (fun p => if p.1 = k then (k, v) else p)
  else d ++ [(k, v)]

/-- `read_inventory`: fold the parsed CSV rows into a dict keyed by the
joined path.  (CSV parsing itself is the identity at this modelling level:
`csv.DictReader` hands back the string fields that were written.) -/
def read_inventory (rows : List Row) : List (String × Row) :=
  rows.foldl (fun d r => dictInsert d (rowKey r) r) []

/-- Python dict lookup on the association-list model. -/
def lookupKey (k : String) : List (String × Row) → Option Row
  | [] => none
  | (k', v) :: t => if k' = k then some v else lookupKey k t

/-- Result of the writing phase of `inventory`: the data rows written after
the header, the number of `md5sum` invocations, and—when a file vanished
before it could be stat'ed/hashed—the uncaught exception's path (the rows
field then holds only what was written before the abort). -/
structure InvResult where
  rows : List Row
  hashes : Nat
  err : Option String
deriving Repr, DecidableEq

/-- The `for f in files_to_check` loop of `inventory`: stat and hash each
file and write its row.  There is no `try`/`except` around the loop body, so
the first file whose metadata cannot be read (`stat f = none`, e.g. it
vanished between listing and hashing) raises and ends the run; files after
it are not processed. -/
def processFiles (stat : String → Option FStat) : List String → InvResult
  | [] => ⟨[], 0, none⟩
  | f :: rest =>
    match stat f with
    | none => ⟨[], 0, some f⟩
    | some st =>
      let r := processFiles stat rest
      ⟨freshRow f st :: r.rows, r.hashes + 1, r.err⟩

/-- A total stat function lifted to the `Option`-valued interface (a run in
which no file vanishes). -/
def totalStat (statT : String → FStat) : String → Option FStat :=
  fun f => some (statT f)

/-- The body of `inventory` once `all_files` is known, in `--outfile` mode.
`prev = some loaded` models a destination file that already existed and
parsed into `loaded`; `prev = none` models the `FileNotFoundError` branch
(fresh run).  On resume, *every* loaded row is written back out first
(`for item in complete_list: writer.writerow(complete_list[item])`), and
fresh metadata is computed only for scanned files whose key is not already
present (`files_to_check = set(all_files).difference(already_done)`; the
set's iteration order is modelled as scan order, which none of the proved
properties depend on). -/
def inventoryFile (prev : Option (List Row)) (stat : String → Option FStat)
    (allFiles : List String) : InvResult :=
  match prev with
  | none => processFiles stat allFiles
  | some loaded =>
    let d := read_inventory loaded
    let todo := allFiles.filter (fun f => !((d.map Prod.fst).contains f))
    let r := processFiles stat todo
    ⟨d.map Prod.snd ++ r.rows, r.hashes, r.err⟩

/-- Process exit status of the `inventory` subcommand: `main` installs no
handler, so an uncaught exception exits non-zero and normal completion exits
zero. -/
def inventoryExit (res : InvResult) : Nat :=
  match res.err with
  | none => 0
  | some _ => 1

/-- Minimal quoting of the `csv` module (`QUOTE_MINIMAL`): quote a field iff
it contains the delimiter, the quote char or a line break, doubling interior
quotes. -/
def csvField (s : String) : String :=
  if s.data.any (fun c => c = ',' || c = '"' || c = '\n' || c = '\r') then
    "\"" ++ String.mk (s.data.flatMap (fun c => if c = '"' then ['"', '"'] else [c])) ++ "\""
  else s

/-- The header row written by `csv.DictWriter.writeheader` for `FIELDNAMES`. -/
def headerLine : String := "Directory,Filename,Extension,Bytes,MTime,Moddate,MD5"

/-- One data row as serialized by `csv.DictWriter.writerow`. -/
def csvLine (r : Row) : String :=
  String.intercalate ","
    ([r.directory, r.filename, r.extension, r.bytes, r.mtime, r.moddate, r.md5].map csvField)

/-- The byte content of a written inventory CSV: header then rows, each
terminated by the `csv` module's default `\r\n`. -/
def renderCsv (rows : List Row) : String :=
  String.join ((headerLine :: rows.map csvLine).map (fun l => l ++ "\r\n"))

/-- Python's substring test `pat in s`, on character lists. -/
def containsSub (cs pat : List Char) : Bool :=
  match cs with
  | [] => pat.isEmpty
  | _ :: t => pat.isPrefixOf cs || containsSub t pat

/-- `pat in s` for strings. -/
def strContains (s pat : String) : Bool := containsSub s.data pat.data

/-- Python `str.split(d)` for a one-character separator (also how the
unquoted fields of a `csv` row with that delimiter are recovered; the
tool's inventories never quote fields in the compare path). -/
def splitOnChar (c : Char) : List Char → List (List Char)
  | [] => [[]]
  | x :: t =>
    let r := splitOnChar c t
    if x = c then [] :: r
    else
      match r with
      | [] => [[x]]
      | h :: t' => (x :: h) :: t'

/-- The length of the maximal run of non-backslash characters ending just
before position `p` of `cs`. -/
def runLenEnding (cs : List Char) (p : Nat) : Nat :=
  ((cs.take p).reverse.takeWhile (fun c => c ≠ '\\')).length

/-- The marker matched by the Tivoli pattern `([^\\]+) \[Sent\]` after its
capture group. -/
def sentMarker : List Char := " [Sent]".data

/-- `re.search(r"([^\\]+) \[Sent\]", line)` and `m.group(1)`: the leftmost
match starts at the beginning of the first backslash-free run that is
immediately followed (after at least one captured character) by the marker;
the greedy group then extends to the last marker occurrence reachable inside
that same run. -/
def tivoliMatch (line : String) : Option String :=
  let cs := line.data
  let occs := (List.range (cs.length + 1)).filter (fun p =>
    sentMarker.isPrefixOf (cs.drop p) && decide (0 < p) &&
      !((cs.take p).getLast? == some '\\'))
  match occs with
  | [] => none
  | p0 :: _ =>
    let i := p0 - runLenEnding cs p0
    let inRun := occs.filter (fun p =>
      decide (i < p) && ((cs.drop i).take (p - i)).all (fun c => c ≠ '\\'))
    match inRun.getLast? with
    | none => none
    | some j => some (String.mk ((cs.drop i).take (j - i)))

/-- The Tivoli branch of `compare`: for every line containing the
`'Normal File-->'` marker, append the captured path when the pattern
matches. -/
def tivoliParse (rawlines : List String) : List String :=
  rawlines.filterMap (fun line =>
    if strContains line "Normal File-->" then tivoliMatch line else none)

/-- Exceptions that can escape `compare`.  `emptyIntersectionError` is the
specification's name for the zero-parsed-inputs failure; it exists in this
error model only so that the spec's claim about it can be stated — the code
itself never constructs it. -/
inductive CompErr : Type where
  | indexError : CompErr
  | keyError : CompErr
  | typeError : CompErr
  | emptyIntersectionError : CompErr
deriving Repr, DecidableEq

/-- The DPI branch of `compare`: auto-detect the delimiter from the header
line, pick the `Key` or `Filename` column, and collect that column of every
non-blank data row (`csv.DictReader` skips blank rows).  A data row shorter
than the header yields no entry at this modelling level (CPython's
`DictReader` would supply `None` there); if the chosen column name is not an
exact header field, the first row lookup raises `KeyError`. -/
def dpiParse (line0 : String) (rest : List String) : Except CompErr (List String) :=
  let delim : Char := if strContains line0 "\t" then '\t' else ','
  let header := splitOnChar delim line0.data
  let keycol : List Char := if strContains line0 "Key" then "Key".data else "Filename".data
  let dataRows := (rest.filter (fun l => l ≠ "")).map (fun l => splitOnChar delim l.data)
  match header.findIdx? (fun h => h == keycol) with
  | some i => Except.ok (dataRows.filterMap (fun r => (r.get? i).map String.mk))
  | none => if dataRows.isEmpty then Except.ok [] else Except.error CompErr.keyError

/-- Parsing of one `compare` input file from its `'\n'`-stripped lines:
`rawlines[0]` raises `IndexError` on an empty file; a Tivoli signature
selects the Tivoli extractor; a header containing `Key` or `Filename`
selects the DPI extractor; anything else is unrecognized and yields no
entries. -/
def parseOne (rawlines : List String) : Except CompErr (List String) :=
  match rawlines with
  | [] => Except.error CompErr.indexError
  | line0 :: rest =>
    if line0 = "IBM Tivoli Storage Manager" then Except.ok (tivoliParse (line0 :: rest))
    else if strContains line0 "Key" || strContains line0 "Filename" then dpiParse line0 rest
    else Except.ok []

/-- What the per-file loop of `compare` accumulates: `filelists` (the inputs
that produced at least one entry, with their entries, in input order) and
the inputs reported as `"has not been parsed"` (those whose `result` list
was empty). -/
structure ParseOutcome where
  filelists : List (String × List String)
  unparsed : List String
deriving Repr, DecidableEq

/-- The `for filepath in all_files` loop of `compare`: parse each input;
an input with a non-empty `result` joins `filelists`, the rest are reported
unparsed (`if result:` is Python truthiness on the list). -/
def parseFiles : List (String × List String) → Except CompErr ParseOutcome
  | [] => Except.ok ⟨[], []⟩
  | (p, lines) :: rest =>
    match parseOne lines with
    | Except.error e => Except.error e
    | Except.ok entries =>
      match parseFiles rest with
      | Except.error e => Except.error e
      | Except.ok out =>
        if entries.isEmpty then Except.ok ⟨out.filelists, p :: out.unparsed⟩
        else Except.ok ⟨(p, entries) :: out.filelists, out.unparsed⟩

/-- The report `compare` prints: the set common to all parsed inputs and,
per input, the lexicographically sorted list of entries unique to it. -/
structure CompareReport where
  common : Finset String
  uniques : List (String × List String)

/-- The whole `compare` subcommand on already-read inputs: build
`filelists`, form one Python set per parsed input, take
`set.intersection(*all_lists)` — which raises `TypeError` when `all_lists`
is empty — and compute each input's sorted difference against the common
set. -/
def compareRun (inputs : List (String × List String)) : Except CompErr CompareReport :=
  match parseFiles inputs with
  | Except.error e => Except.error e
  | Except.ok out =>
    match out.filelists.map (fun pr => pr.2.toFinset) with
    | [] => Except.error CompErr.typeError
    | s :: rest =>
      let common := rest.foldl (fun a b => a ∩ b) s
      Except.ok
        { common := common
        , uniques := out.filelists.map (fun pr =>
            (pr.1, Finset.sort (fun a b => a ≤ b) (pr.2.toFinset \ common))) }

/-- Where a chunk of output goes: the opened `--outfile` handle, or the
process standard output (`print`'s destination). -/
inductive Dest : Type where
  | file : Dest
  | out : Dest
deriving Repr, DecidableEq

/-- One write performed during an `inventory` run: which mechanism produced
it (the `csv.DictWriter` bound to `fh`, or a `print` call), which stream it
lands on, and the chunk written.  The csv writer's destination is the opened
`--outfile` when one was given and standard output otherwise; `print` always
targets standard output. -/
structure Ev where
  fromCsvWriter : Bool
  dest : Dest
  chunk : String
deriving Repr, DecidableEq

/-- The running counter line `print("Files checked: {0}/{1}".format(count,
total), end='\r')`. -/
def progressLine (c t : Nat) : String :=
  "Files checked: " ++ toString c ++ "/" ++ toString t

/-- Output events of the fresh-metadata loop: for each file, its CSV row is
written by the csv writer and then the progress counter is printed to
standard output.  `c` is the running `count` entering the loop iteration,
`total` is `len(all_files)`. -/
def freshEvents (csvDest : Dest) (statT : String → FStat) (total : Nat) :
    List String → Nat → List Ev
  | [], _ => []
  | f :: rest, c =>
    ⟨true, csvDest, csvLine (freshRow f (statT f))⟩ ::
    ⟨false, Dest.out, progressLine (c + 1) total⟩ ::
    freshEvents csvDest statT total rest (c + 1)

/-- The banner printed by `print_header('inventory')` plus the
`"Checking path"` line; all `print` calls on standard output. -/
def bannerEvents (root : String) : List Ev :=
  [⟨false, Dest.out, ""⟩, ⟨false, Dest.out, "preserve.py inventory"⟩,
   ⟨false, Dest.out, "====================="⟩,
   ⟨false, Dest.out, "Checking path: " ++ root⟩]

/-- The trailing prints: counter clear, completion message, blank line. -/
def trailerEvents : List Ev :=
  [⟨false, Dest.out, ""⟩, ⟨false, Dest.out, "Inventory complete!"⟩,
   ⟨false, Dest.out, ""⟩]

/-- The complete ordered sequence of writes performed by the `inventory`
subcommand.  `outfile = some (opath, prev)` is `--outfile opath` where the
destination currently parses to `prev` (`none` for the `FileNotFoundError`
branch); `outfile = none` writes the CSV to standard output, in which case
the resume lookup is never attempted (`complete_list = []`,
`files_to_check = all_files`).  The run is modelled with a total stat
function (no file vanishes). -/
def inventoryEvents (fs : Option (List Entry)) (root : String)
    (outfile : Option (String × Option (List Row))) (statT : String → FStat) :
    List Ev :=
  let allFiles := list_files fs root
  match outfile with
  | some (opath, prev) =>
    let cl_todo : List (String × Row) × List String :=
      match prev with
      | some loaded =>
        let d := read_inventory loaded
        (d, allFiles.filter (fun f => !((d.map Prod.fst).contains f)))
      | none => ([], allFiles)
    bannerEvents root
      ++ [⟨false, Dest.out, "Writing inventory to file " ++ opath⟩,
          ⟨true, Dest.file, headerLine⟩]
      ++ cl_todo.1.map (fun pr => (⟨true, Dest.file, csvLine pr.2⟩ : Ev))
      ++ freshEvents Dest.file statT allFiles.length cl_todo.2 cl_todo.1.length
      ++ trailerEvents
  | none =>
    bannerEvents root
      ++ [⟨false, Dest.out, "Writing inventory to stdout"⟩,
          ⟨true, Dest.out, headerLine⟩]
      ++ freshEvents Dest.out statT allFiles.length allFiles 0
      ++ trailerEvents

/-- The chunks received by one destination stream, in write order. -/
def streamOf (d : Dest) (evs : List Ev) : List String :=
  (evs.filter (fun e => e.dest = d)).map Ev.chunk

/-- The chunks emitted by the csv writer — the CSV payload of the run — in
write order. -/
def csvPayload (evs : List Ev) : List String :=
  (evs.filter (fun e => e.fromCsvWriter)).map Ev.chunk

/-- Whether `block` occurs contiguously inside `stream`. -/
def containsBlock (stream block : List String) : Bool :=
  match stream with
  | [] => block.isEmpty
  | _ :: t => block.isPrefixOf stream || containsBlock t block

/-- The path obtained by joining the name components `comps` under `root`,
in walk order. -/
def joinAll (root : String) (comps : List String) : String :=
  comps.foldl (fun a c => a ++ "/" ++ c) root

theorem dirFiles_mem :
    ∀ (es : List Entry) (root p : String), p ∈ dirFiles root es →
      ∃ n, hiddenName n = false ∧ p = root ++ "/" ++ n := by
  intro es
  induction es with
  | nil => intro root p h; simp [dirFiles] at h
  | cons e rest ih =>
    intro root p h
    cases e with
    | file n =>
      simp only [dirFiles] at h
      rcases List.mem_append.mp h with h1 | h2
      · by_cases hn : hiddenName n = true
        · simp [hn] at h1
        · simp [hn] at h1
          exact ⟨n, Bool.not_eq_true _ ▸ hn, h1⟩
      · exact ih root p h2
    | dir m cs =>
      simp only [dirFiles] at h
      exact ih root p h

theorem subdirFiles_mem :
    ∀ (es : List Entry) (root p : String), p ∈ subdirFiles root es →
      ∃ comps, comps ≠ [] ∧ (∀ c ∈ comps, hiddenName c = false) ∧
        p = joinAll root comps
  | [], root, p, h => by simp [subdirFiles] at h
  | Entry.file n :: rest, root, p, h =>
      subdirFiles_mem rest root p (by simpa [subdirFiles] using h)
  | Entry.dir n cs :: rest, root, p, h => by
    simp only [subdirFiles] at h
    rcases List.mem_append.mp h with h1 | h2
    · by_cases hn : hiddenName n = true
      · simp [hn] at h1
      · simp only [hn, if_false, Bool.false_eq_true] at h1
        rcases List.mem_append.mp h1 with ha | hb
        · obtain ⟨m, hm, hp⟩ := dirFiles_mem cs (root ++ "/" ++ n) p ha
          refine ⟨[n, m], by simp, ?_, ?_⟩
          · intro c hc
            rcases hc with _ | ⟨_, hc⟩
            · exact Bool.not_eq_true _ ▸ hn
            · rcases hc with _ | ⟨_, hc⟩
              · exact hm
              · cases hc
          · simpa [joinAll] using hp
        · obtain ⟨comps, hne, hall, hp⟩ := subdirFiles_mem cs (root ++ "/" ++ n) p hb
          refine ⟨n :: comps, by simp, ?_, ?_⟩
          · intro c hc
            rcases List.mem_cons.mp hc with rfl | hc
            · exact Bool.not_eq_true _ ▸ hn
            · exact hall c hc
          · simpa [joinAll] using hp
    · exact subdirFiles_mem rest root p h2

/-- C3: every file or directory whose name begins with a dot is pruned from
the traversal of `list_files`, so no returned path involves a hidden name at
any depth: each returned path decomposes as the root joined with a non-empty
chain of entry names, none of which starts with a dot.  In particular no
hidden file, nor any descendant of a hidden directory, appears in the
returned list, and hence none appears in a freshly produced inventory, which
draws its rows exactly from this list. -/
theorem C3_hidden_pruned (es : List Entry) (root p : String)
    (h : p ∈ list_files (some es) root) :
    ∃ comps, comps ≠ [] ∧ (∀ c ∈ comps, hiddenName c = false) ∧
      p = joinAll root comps := by
  simp only [list_files, filesUnder] at h
  rcases List.mem_append.mp h with h1 | h2
  · obtain ⟨n, hn, hp⟩ := dirFiles_mem es root p h1
    refine ⟨[n], by simp, ?_, by simpa [joinAll] using hp⟩
    intro c hc
    rcases List.mem_singleton.mp hc with rfl
    exact hn
  · exact subdirFiles_mem es root p h2

/-- Witness for C3 at a concrete tree containing a hidden file `.h` and a
hidden directory `.d`: the path `/r/s/b` returned by the walk decomposes
into dot-free components. -/
theorem C3_hidden_pruned_witness :
    ∃ comps, comps ≠ [] ∧ (∀ c ∈ comps, hiddenName c = false) ∧
      "/r/s/b" = joinAll "/r" comps :=
  C3_hidden_pruned
    [Entry.file "a", Entry.file ".h", Entry.dir ".d" [Entry.file "x"],
     Entry.dir "s" [Entry.file "b"]] "/r" "/r/s/b"
    (by simp only [list_files, filesUnder, dirFiles, subdirFiles]; decide)

theorem lookupKey_append (k : String) :
    ∀ (d e : List (String × Row)),
      lookupKey k (d ++ e) = (lookupKey k d).or (lookupKey k e) := by
  intro d e
  induction d with
  | nil => simp [lookupKey]
  | cons p t ih =>
    rcases p with ⟨k', v⟩
    by_cases h : k' = k
    · simp [lookupKey, h]
    · simpa [lookupKey, h] using ih

theorem lookupKey_eq_none (k : String) :
    ∀ (d : List (String × Row)), (∀ p ∈ d, p.1 ≠ k) → lookupKey k d = none := by
  intro d
  induction d with
  | nil => intro _; rfl
  | cons p t ih =>
    intro h
    rcases p with ⟨k', v⟩
    have hk : k' ≠ k := h (k', v) (List.mem_cons_self _ _)
    simp only [lookupKey, if_neg hk]
    exact ih (fun q hq => h q (List.mem_cons_of_mem _ hq))

theorem lookupKey_cons (k k0 : String) (v0 : Row) (t : List (String × Row)) :
    lookupKey k ((k0, v0) :: t) = if k0 = k then some v0 else lookupKey k t := rfl

theorem lookupKey_map_overwrite (k k' : String) (v : Row) :
    ∀ (d : List (String × Row)),
      lookupKey k' (d.map (fun p => if p.1 = k then (k, v) else p)) =
        if k' = k then (lookupKey k d).map (fun _ => v) else lookupKey k' d := by
  intro d
  induction d with
  | nil => by_cases h : k' = k <;> simp [lookupKey, h]
  | cons p t ih =>
    rcases p with ⟨k0, v0⟩
    by_cases h0 : k0 = k
    · subst h0
      by_cases h1 : k' = k0
      · subst h1
        simp [lookupKey_cons, ih]
      · have h1' : ¬ k0 = k' := fun h => h1 h.symm
        simp [lookupKey_cons, h1, h1', ih]
    · by_cases h1 : k' = k
      · subst h1
        simp [lookupKey_cons, h0, ih]
      · by_cases h2 : k0 = k'
        · subst h2
          simp [lookupKey_cons, h0, h1, ih]
        · simp [lookupKey_cons, h0, h1, h2, ih]

theorem lookupKey_isSome_of_any (k : String) :
    ∀ (d : List (String × Row)), d.any (fun p => p.1 = k) = true →
      ∃ w, lookupKey k d = some w := by
  intro d
  induction d with
  | nil => intro h; simp at h
  | cons p t ih =>
    intro h
    rcases p with ⟨k', v⟩
    by_cases hk : k' = k
    · exact ⟨v, by simp [lookupKey, hk]⟩
    · simp only [List.any_cons, Bool.or_eq_true, decide_eq_true_eq] at h
      rcases h with h | h
      · exact absurd h hk
      · simpa [lookupKey, hk] using ih h

theorem lookupKey_dictInsert (d : List (String × Row)) (k k' : String) (v : Row) :
    lookupKey k' (dictInsert d k v) = if k' = k then some v else lookupKey k' d := by
  by_cases hany : d.any (fun p => p.1 = k) = true
  · rw [dictInsert, if_pos hany, lookupKey_map_overwrite]
    by_cases h1 : k' = k
    · obtain ⟨w, hw⟩ := lookupKey_isSome_of_any k d hany
      simp [h1, hw]
    · simp [h1]
  · rw [dictInsert, if_neg hany, lookupKey_append]
    have hnone : lookupKey k d = none := by
      apply lookupKey_eq_none
      intro p hp hpk
      exact hany (List.any_eq_true.mpr ⟨p, hp, by simp [hpk]⟩)
    by_cases h1 : k' = k
    · subst h1; simp [hnone, lookupKey]
    · have h1' : ¬ k = k' := fun h => h1 h.symm
      cases hx : lookupKey k' d <;> simp [hx, lookupKey, h1, h1', Option.or]

theorem keys_dictInsert (d : List (String × Row)) (k : String) (v : Row) :
    (dictInsert d k v).map Prod.fst =
      if d.any (fun p => p.1 = k) then d.map Prod.fst
      else d.map Prod.fst ++ [k] := by
  by_cases hany : d.any (fun p => p.1 = k) = true
  · rw [dictInsert, if_pos hany, if_pos hany, List.map_map]
    apply List.map_congr_left
    intro p _
    by_cases hp : p.1 = k
    · simp [hp]
    · simp [hp]
  · rw [dictInsert, if_neg hany, if_neg hany]
    simp

theorem read_inventory_concat (rows : List Row) (r : Row) :
    read_inventory (rows ++ [r]) = dictInsert (read_inventory rows) (rowKey r) r := by
  simp [read_inventory, List.foldl_append]

/-- C9: `read_inventory` returns a mapping keyed by
`os.path.join(row['Directory'], row['Filename'])`; looking up any key yields
the metadata of the *last* CSV row carrying that key (earlier duplicates are
silently overwritten), and the resulting keys are unique by construction. -/
theorem C9_read_inventory_last_wins (rows : List Row) :
    (∀ k, lookupKey k (read_inventory rows) =
        (rows.filter (fun r => rowKey r = k)).getLast?) ∧
    ((read_inventory rows).map Prod.fst).Nodup := by
  induction rows using List.reverseRecOn with
  | nil => exact ⟨fun k => rfl, by simp [read_inventory]⟩
  | append_singleton rows r ih =>
    rcases ih with ⟨ihl, ihn⟩
    constructor
    · intro k
      rw [read_inventory_concat, lookupKey_dictInsert]
      by_cases hk : k = rowKey r
      · rw [if_pos hk, List.filter_append]
        have : [r].filter (fun x => rowKey x = k) = [r] := by simp [hk]
        rw [this, List.getLast?_concat]
      · rw [if_neg hk, List.filter_append]
        have : [r].filter (fun x => rowKey x = k) = [] := by
          have hk' : ¬ rowKey r = k := fun h => hk h.symm
          simp [hk']
        rw [this, List.append_nil, ihl]
    · rw [read_inventory_concat, keys_dictInsert]
      by_cases hany : (read_inventory rows).any (fun p => p.1 = rowKey r) = true
      · rw [if_pos hany]; exact ihn
      · rw [if_neg hany]
        refine List.Nodup.append ihn (List.nodup_singleton _) ?_
        intro a ha hb
        rcases List.mem_singleton.mp hb with rfl
        rcases List.mem_map.mp ha with ⟨p, hp, hpk⟩
        exact hany (List.any_eq_true.mpr ⟨p, hp, by simp [hpk]⟩)

/-- C4 counterexample: for the nonexistent root `/missing`, `list_files`
returns `[]` — `os.walk` swallows the scandir error and yields nothing — and
the `inventory` run over it completes normally with a header-only inventory
and exit status 0.  This refutes the claim that a missing root fails with
`NotFoundError` and a non-zero exit (no `NotFoundError` exists in the
code). -/
theorem C4_missing_root_counterexample :
    list_files none "/missing" = [] ∧
    (inventoryFile none (fun _ => none) (list_files none "/missing")).err = none ∧
    inventoryExit (inventoryFile none (fun _ => none) (list_files none "/missing")) = 0 :=
  ⟨rfl, rfl, rfl⟩

/-- C4 (amended): listing a root that does not exist returns the empty
sequence (no exception is raised), so `inventory` on it succeeds with exit
status 0 and writes a header-only CSV — exactly the behaviour it has on an
existing empty directory, which also lists to the empty sequence and
succeeds. -/
theorem C4_missing_root_silent (root : String) (stat : String → Option FStat)
    (prev : Option (List Row)) :
    list_files none root = [] ∧
    list_files (some []) root = [] ∧
    inventoryFile none stat (list_files none root) = ⟨[], 0, none⟩ ∧
    inventoryExit (inventoryFile prev stat (list_files none root)) = 0 := by
  refine ⟨rfl, ?_, rfl, ?_⟩
  · simp [list_files, filesUnder, dirFiles, subdirFiles]
  · cases prev with
    | none => rfl
    | some loaded => simp [list_files, inventoryFile, processFiles, inventoryExit]

/-- C2 counterexample: with two unrecognized inputs nothing parses, and
`compare` fails with `TypeError` — the unbound `set.intersection(*[])` call
— not with `EmptyIntersectionError`, which the code never raises.  The
failure is explicit either way, but the claimed exception is wrong. -/
theorem C2_zero_parsed_counterexample :
    compareRun [("f1", ["garbage"]), ("f2", ["junk"])] =
      Except.error CompErr.typeError ∧
    CompErr.typeError ≠ CompErr.emptyIntersectionError :=
  ⟨rfl, by decide⟩

/-- C2 (amended): whenever zero input files parse successfully, `compare`
fails explicitly — `set.intersection(*all_lists)` with an empty argument
list raises `TypeError` — rather than returning an empty or bogus universal
intersection.  (The specification's `EmptyIntersectionError` does not exist
in the code.) -/
theorem C2_zero_parsed_raises (inputs : List (String × List String))
    (out : ParseOutcome) (hp : parseFiles inputs = Except.ok out)
    (h0 : out.filelists = []) :
    compareRun inputs = Except.error CompErr.typeError := by
  simp [compareRun, hp, h0]

/-- Witness for C2 (amended) at two concrete unparseable inputs. -/
theorem C2_zero_parsed_raises_witness :
    compareRun [("fa", ["nothing here"]), ("fb", ["more nothing"])] =
      Except.error CompErr.typeError :=
  C2_zero_parsed_raises _ ⟨[], ["fa", "fb"]⟩ rfl rfl

theorem parseFiles_snoc_empty (p : String) (lines : List String)
    (h : parseOne lines = Except.ok []) :
    ∀ (inputs : List (String × List String)) (out : ParseOutcome),
      parseFiles inputs = Except.ok out →
      parseFiles (inputs ++ [(p, lines)]) =
        Except.ok ⟨out.filelists, out.unparsed ++ [p]⟩ := by
  intro inputs
  induction inputs with
  | nil =>
    intro out hout
    have : out = ⟨[], []⟩ := by
      simpa [parseFiles] using hout.symm
    subst this
    simp [parseFiles, h]
  | cons q t ih =>
    intro out hout
    rcases q with ⟨qp, qlines⟩
    rw [List.cons_append]
    rw [parseFiles] at hout ⊢
    cases hq : parseOne qlines with
    | error e => rw [hq] at hout; cases hout
    | ok entries =>
      rw [hq] at hout
      dsimp only at hout ⊢
      cases ht : parseFiles t with
      | error e => rw [ht] at hout; cases hout
      | ok o =>
        rw [ht] at hout
        dsimp only at hout
        rw [ih o ht]
        dsimp only
        by_cases he : entries.isEmpty = true
        · simp only [he, if_true] at hout ⊢
          cases hout
          simp
        · simp only [he, if_false, Bool.false_eq_true] at hout ⊢
          cases hout
          simp

/-- C10: an input whose format is recognized but yields zero extracted
entries (e.g. a header-only inventory) is classified as not parsed: it is
added to the reported-unparsed list, excluded from `filelists`, and hence
excluded from the intersection — appending such an input leaves the whole
`compare` report unchanged, so an empty recognized input never forces the
common set to be empty. -/
theorem C10_empty_input_excluded (p : String) (lines : List String)
    (inputs : List (String × List String)) (out : ParseOutcome)
    (h : parseOne lines = Except.ok [])
    (hin : parseFiles inputs = Except.ok out) :
    parseFiles (inputs ++ [(p, lines)]) =
      Except.ok ⟨out.filelists, out.unparsed ++ [p]⟩ ∧
    compareRun (inputs ++ [(p, lines)]) = compareRun inputs := by
  have h1 := parseFiles_snoc_empty p lines h inputs out hin
  refine ⟨h1, ?_⟩
  rw [compareRun, compareRun, h1, hin]

/-- Witness for C10: appending the header-only (recognized) inventory `g2` to
a parsed input list reports it unparsed and leaves the report unchanged. -/
theorem C10_empty_input_excluded_witness :
    parseFiles ([("g1", ["Filename", "x"])] ++ [("g2", ["Filename"])]) =
      Except.ok ⟨[("g1", ["x"])], [] ++ ["g2"]⟩ ∧
    compareRun ([("g1", ["Filename", "x"])] ++ [("g2", ["Filename"])]) =
      compareRun [("g1", ["Filename", "x"])] :=
  C10_empty_input_excluded "g2" ["Filename"] [("g1", ["Filename", "x"])]
    ⟨[("g1", ["x"])], []⟩ rfl rfl

theorem processFiles_total (statT : String → FStat) :
    ∀ (files : List String),
      processFiles (totalStat statT) files =
        ⟨files.map (fun f => freshRow f (statT f)), files.length, none⟩ := by
  intro files
  induction files with
  | nil => rfl
  | cons f t ih => simp [processFiles, totalStat, ih]

/-- C1 counterexample: resuming from a destination holding only the stale
row for `/r/gone` — a key absent from the current scan `["/r/a"]` — still
writes that stale row to the output, refuting the claim that
previously-recorded entries with keys outside the current scan's key set are
dropped. -/
theorem C1_stale_kept_counterexample :
    joinPath "/r" "gone" ∉ ["/r/a"] ∧
    (⟨"/r", "gone", "", "1", "0", "d", "m"⟩ : Row) ∈
      (inventoryFile (some [⟨"/r", "gone", "", "1", "0", "d", "m"⟩])
        (totalStat (fun _ => ⟨0, "d", 1, "m"⟩)) ["/r/a"]).rows := by
  exact ⟨by decide, by decide⟩

/-- C1 (amended): when `inventory` resumes from an existing destination CSV,
*every* previously-recorded entry is copied through to the rewritten output
unchanged — including stale entries whose path key is absent from the
current scan — while fresh records (with exactly one hash computation each)
are produced for precisely the scanned files whose key is not already
recorded. -/
theorem C1_resume_copies_all (loaded : List Row) (statT : String → FStat)
    (files : List String) (k : String) (v : Row) (f : String)
    (hv : (k, v) ∈ read_inventory loaded) (hf : f ∈ files)
    (hnew : ((read_inventory loaded).map Prod.fst).contains f = false) :
    v ∈ (inventoryFile (some loaded) (totalStat statT) files).rows ∧
    freshRow f (statT f) ∈ (inventoryFile (some loaded) (totalStat statT) files).rows ∧
    (inventoryFile (some loaded) (totalStat statT) files).hashes =
      (files.filter
        (fun g => !((read_inventory loaded).map Prod.fst).contains g)).length := by
  have hf' : f ∉ (read_inventory loaded).map Prod.fst := by
    simpa using hnew
  simp only [inventoryFile, processFiles_total]
  refine ⟨?_, ?_, by simp⟩
  · apply List.mem_append.mpr
    left
    exact List.mem_map.mpr ⟨(k, v), hv, rfl⟩
  · refine List.mem_append.mpr (Or.inr ?_)
    have hmem : f ∈ files.filter
        (fun g => !((read_inventory loaded).map Prod.fst).contains g) :=
      List.mem_filter.mpr ⟨hf, by simpa using hf'⟩
    exact List.mem_map_of_mem _ hmem

/-- Witness for C1 (amended) at a concrete resume run: the loaded entry for
`/q/old` is copied through and the new scanned file `/q/new` is freshly
recorded. -/
theorem C1_resume_copies_all_witness :
    (⟨"/q", "old", "", "3", "9", "t", "x"⟩ : Row) ∈
      (inventoryFile (some [⟨"/q", "old", "", "3", "9", "t", "x"⟩])
        (totalStat (fun _ => ⟨8, "u", 2, "y"⟩)) ["/q/new"]).rows ∧
    freshRow "/q/new" ((fun _ => (⟨8, "u", 2, "y"⟩ : FStat)) "/q/new") ∈
      (inventoryFile (some [⟨"/q", "old", "", "3", "9", "t", "x"⟩])
        (totalStat (fun _ => ⟨8, "u", 2, "y"⟩)) ["/q/new"]).rows ∧
    (inventoryFile (some [⟨"/q", "old", "", "3", "9", "t", "x"⟩])
        (totalStat (fun _ => ⟨8, "u", 2, "y"⟩)) ["/q/new"]).hashes =
      (["/q/new"].filter
        (fun g => !((read_inventory [⟨"/q", "old", "", "3", "9", "t", "x"⟩]).map
          Prod.fst).contains g)).length :=
  C1_resume_copies_all [⟨"/q", "old", "", "3", "9", "t", "x"⟩]
    (fun _ => ⟨8, "u", 2, "y"⟩) ["/q/new"] (joinPath "/q" "old")
    ⟨"/q", "old", "", "3", "9", "t", "x"⟩ "/q/new" (by decide) (by decide) (by decide)

/-- C6 counterexample: with scanned files `/r/a` (vanished before hashing)
and `/r/b` (readable), the run aborts at `/r/a` with no rows written and
zero hashes: `/r/b` is never processed, refuting the claim that a vanished
file is skipped and the run continues to completion. -/
theorem C6_vanished_aborts_counterexample :
    processFiles (fun g => if g = "/r/b" then some ⟨0, "d", 1, "m"⟩ else none)
      ["/r/a", "/r/b"] = ⟨[], 0, some "/r/a"⟩ := by
  decide

/-- C6 (amended): the per-file metadata loop of `inventory` has no exception
handling: if a listed file vanishes (or becomes unreadable) before it is
hashed, the error propagates — the run aborts at that file with only the
rows of the files before it written, and the remaining files are not
processed. -/
theorem C6_vanished_aborts (stat : String → Option FStat)
    (statT : String → FStat) (pre rest : List String) (f : String)
    (hpre : ∀ g ∈ pre, stat g = some (statT g)) (hf : stat f = none) :
    processFiles stat (pre ++ f :: rest) =
      ⟨pre.map (fun g => freshRow g (statT g)), pre.length, some f⟩ := by
  induction pre with
  | nil => simp [processFiles, hf]
  | cons g t ih =>
    have hg := hpre g (List.mem_cons_self _ _)
    have ht : ∀ x ∈ t, stat x = some (statT x) :=
      fun x hx => hpre x (List.mem_cons_of_mem _ hx)
    simp [processFiles, hg, ih ht]

/-- Witness for C6 (amended): one readable file before the vanished one. -/
theorem C6_vanished_aborts_witness :
    processFiles (fun g => if g = "/x/bad" then none else some ⟨1, "d", 2, "m"⟩)
      (["/x/ok"] ++ "/x/bad" :: ["/x/later"]) =
      ⟨["/x/ok"].map (fun g => freshRow g ((fun _ => (⟨1, "d", 2, "m"⟩ : FStat)) g)),
       ["/x/ok"].length, some "/x/bad"⟩ :=
  C6_vanished_aborts (fun g => if g = "/x/bad" then none else some ⟨1, "d", 2, "m"⟩)
    (fun _ => ⟨1, "d", 2, "m"⟩) ["/x/ok"] ["/x/later"] "/x/bad"
    (by decide) (by decide)

theorem foldl_inter_mem (x : String) :
    ∀ (rest : List (Finset String)) (s : Finset String),
      (x ∈ rest.foldl (fun a b => a ∩ b) s ↔ x ∈ s ∧ ∀ t ∈ rest, x ∈ t) := by
  intro rest
  induction rest with
  | nil => intro s; simp
  | cons t ts ih =>
    intro s
    rw [List.foldl_cons, ih]
    simp [Finset.mem_inter, and_assoc]

/-- C5: on any collection of successfully parsed `compare` inputs (at least
one), the reported common set holds exactly the values present in every
parsed input, and the entries reported unique to each input are exactly that
input's set minus the common set, enumerated in (lexicographically) sorted
order under the same input name. -/
theorem C5_compare_report (inputs : List (String × List String))
    (out : ParseOutcome) (hp : parseFiles inputs = Except.ok out)
    (hne : out.filelists ≠ []) :
    ∃ r, compareRun inputs = Except.ok r ∧
      (∀ x, x ∈ r.common ↔ ∀ pr ∈ out.filelists, x ∈ pr.2.toFinset) ∧
      r.uniques.length = out.filelists.length ∧
      (∀ (i : Nat) (pr u : String × List String),
        out.filelists[i]? = some pr → r.uniques[i]? = some u →
        u.1 = pr.1 ∧ u.2.Sorted (fun a b => a ≤ b) ∧
        u.2.toFinset = pr.2.toFinset \ r.common) := by
  obtain ⟨pr0, prs, hfl⟩ : ∃ pr0 prs, out.filelists = pr0 :: prs := by
    cases hc : out.filelists with
    | nil => exact absurd hc hne
    | cons a b => exact ⟨a, b, rfl⟩
  have hrun : compareRun inputs =
      Except.ok
        { common := (prs.map (fun pr => pr.2.toFinset)).foldl
            (fun a b => a ∩ b) pr0.2.toFinset
        , uniques := (pr0 :: prs).map (fun pr =>
            (pr.1, Finset.sort (fun a b => a ≤ b)
              (pr.2.toFinset \ (prs.map (fun pr => pr.2.toFinset)).foldl
                (fun a b => a ∩ b) pr0.2.toFinset))) } := by
    rw [compareRun, hp]
    dsimp only
    rw [hfl]
    dsimp only [List.map_cons]
  refine ⟨_, hrun, ?_, ?_, ?_⟩
  · intro x
    rw [foldl_inter_mem, hfl]
    simp only [List.forall_mem_cons, List.mem_map]
    constructor
    · rintro ⟨h0, hrest⟩
      refine ⟨h0, fun pr hpr => hrest _ ⟨pr, hpr, rfl⟩⟩
    · rintro ⟨h0, hrest⟩
      exact ⟨h0, by rintro t ⟨pr, hpr, rfl⟩; exact hrest pr hpr⟩
  · rw [hfl]
    simp
  · intro i pr u hpr hu
    rw [hfl] at hpr
    rw [List.getElem?_map, hpr] at hu
    cases hu
    exact ⟨rfl, Finset.sort_sorted _ _, Finset.sort_toFinset _ _⟩

/-- Witness for C5 at two concrete DPI inventories listing `x, y` and
`y, z`. -/
theorem C5_compare_report_witness :
    ∃ r, compareRun [("w1", ["Filename", "x", "y"]), ("w2", ["Filename", "y", "z"])] =
        Except.ok r ∧
      (∀ x, x ∈ r.common ↔
        ∀ pr ∈ (⟨[("w1", ["x", "y"]), ("w2", ["y", "z"])], []⟩ : ParseOutcome).filelists,
          x ∈ pr.2.toFinset) ∧
      r.uniques.length =
        (⟨[("w1", ["x", "y"]), ("w2", ["y", "z"])], []⟩ : ParseOutcome).filelists.length ∧
      (∀ (i : Nat) (pr u : String × List String),
        (⟨[("w1", ["x", "y"]), ("w2", ["y", "z"])], []⟩ : ParseOutcome).filelists[i]? = some pr →
        r.uniques[i]? = some u →
        u.1 = pr.1 ∧ u.2.Sorted (fun a b => a ≤ b) ∧
        u.2.toFinset = pr.2.toFinset \ r.common) :=
  C5_compare_report [("w1", ["Filename", "x", "y"]), ("w2", ["Filename", "y", "z"])]
    ⟨[("w1", ["x", "y"]), ("w2", ["y", "z"])], []⟩ rfl (by decide)

theorem dictInsert_of_not_any (d : List (String × Row)) (k : String) (v : Row)
    (h : d.any (fun p => p.1 = k) = false) :
    dictInsert d k v = d ++ [(k, v)] := by
  rw [dictInsert, if_neg]
  simp [h]

theorem read_inventory_nodup_keys :
    ∀ (rows : List Row) (d : List (String × Row)),
      ((d.map Prod.fst) ++ rows.map rowKey).Nodup →
      rows.foldl (fun d r => dictInsert d (rowKey r) r) d =
        d ++ rows.map (fun r => (rowKey r, r)) := by
  intro rows
  induction rows with
  | nil => intro d _; simp
  | cons r t ih =>
    intro d h
    have hk : rowKey r ∉ d.map Prod.fst := by
      rw [List.nodup_append] at h
      intro hmem
      exact h.2.2 hmem (by simp)
    have hany : d.any (fun p => p.1 = rowKey r) = false := by
      rw [Bool.eq_false_iff]
      intro hc
      rcases List.any_eq_true.mp hc with ⟨p, hp, hpk⟩
      exact hk (List.mem_map.mpr ⟨p, hp, by simpa using hpk⟩)
    rw [List.foldl_cons, dictInsert_of_not_any _ _ _ hany, ih]
    · simp
    · have : (d.map Prod.fst ++ [rowKey r]) ++ t.map rowKey =
          d.map Prod.fst ++ (r :: t).map rowKey := by simp
      rw [List.map_append]
      simpa [this, List.append_assoc] using h

theorem read_inventory_of_nodup (rows : List Row)
    (h : (rows.map rowKey).Nodup) :
    read_inventory rows = rows.map (fun r => (rowKey r, r)) := by
  have := read_inventory_nodup_keys rows [] (by simpa using h)
  simpa [read_inventory] using this

/-- C7: running `inventory` twice with the same `--outfile` over an
unchanged tree (same scan, same per-file metadata): the first run completes
with fresh rows for every file; the second run loads those rows, finds every
scanned path already recorded, writes the identical row sequence — hence
byte-identical CSV output — and invokes the hash function zero times.  The
hypotheses record two facts about real scans: listed paths are distinct, and
re-joining a written row's `Directory`/`Filename` recovers the path. -/
theorem C7_inventory_idempotent (statT : String → FStat) (files : List String)
    (hnd : files.Nodup)
    (hrt : ∀ f ∈ files, rowKey (freshRow f (statT f)) = f) :
    (inventoryFile none (totalStat statT) files).err = none ∧
    inventoryFile (some (inventoryFile none (totalStat statT) files).rows)
        (totalStat statT) files =
      ⟨(inventoryFile none (totalStat statT) files).rows, 0, none⟩ ∧
    renderCsv (inventoryFile (some (inventoryFile none (totalStat statT) files).rows)
        (totalStat statT) files).rows =
      renderCsv (inventoryFile none (totalStat statT) files).rows := by
  have h1 : inventoryFile none (totalStat statT) files =
      ⟨files.map (fun f => freshRow f (statT f)), files.length, none⟩ := by
    simp [inventoryFile, processFiles_total]
  have hkeys : (files.map (fun f => freshRow f (statT f))).map rowKey = files := by
    rw [List.map_map]
    calc files.map (rowKey ∘ fun f => freshRow f (statT f))
        = files.map id := List.map_congr_left (fun f hf => hrt f hf)
      _ = files := List.map_id files
  have hrd : read_inventory (files.map fun f => freshRow f (statT f)) =
      (files.map fun f => freshRow f (statT f)).map (fun r => (rowKey r, r)) :=
    read_inventory_of_nodup _ (by rw [hkeys]; exact hnd)
  have hfst : (read_inventory (files.map fun f => freshRow f (statT f))).map
      Prod.fst = files := by
    rw [hrd, List.map_map]
    simpa using hkeys
  have hsnd : (read_inventory (files.map fun f => freshRow f (statT f))).map
      Prod.snd = files.map fun f => freshRow f (statT f) := by
    rw [hrd, List.map_map]
    simp
  have htodo : files.filter
      (fun f => !((read_inventory (files.map fun g => freshRow g (statT g))).map
        Prod.fst).contains f) = [] := by
    rw [List.filter_eq_nil_iff]
    intro a ha
    simp [hfst, ha]
  have h2 : inventoryFile (some (inventoryFile none (totalStat statT) files).rows)
      (totalStat statT) files =
      ⟨(inventoryFile none (totalStat statT) files).rows, 0, none⟩ := by
    rw [h1]
    simp only [inventoryFile]
    rw [htodo]
    simp [processFiles, hsnd]
  exact ⟨by rw [h1], h2, by rw [h2]⟩

/-- Witness for C7 at a two-file scan with constant metadata. -/
theorem C7_inventory_idempotent_witness :
    (inventoryFile none (totalStat (fun _ => ⟨7, "t", 42, "h"⟩))
      ["/w/a.txt", "/w/b.txt"]).err = none ∧
    inventoryFile
        (some (inventoryFile none (totalStat (fun _ => ⟨7, "t", 42, "h"⟩))
          ["/w/a.txt", "/w/b.txt"]).rows)
        (totalStat (fun _ => ⟨7, "t", 42, "h"⟩)) ["/w/a.txt", "/w/b.txt"] =
      ⟨(inventoryFile none (totalStat (fun _ => ⟨7, "t", 42, "h"⟩))
        ["/w/a.txt", "/w/b.txt"]).rows, 0, none⟩ ∧
    renderCsv (inventoryFile
        (some (inventoryFile none (totalStat (fun _ => ⟨7, "t", 42, "h"⟩))
          ["/w/a.txt", "/w/b.txt"]).rows)
        (totalStat (fun _ => ⟨7, "t", 42, "h"⟩)) ["/w/a.txt", "/w/b.txt"]).rows =
      renderCsv (inventoryFile none (totalStat (fun _ => ⟨7, "t", 42, "h"⟩))
        ["/w/a.txt", "/w/b.txt"]).rows :=
  C7_inventory_idempotent (fun _ => ⟨7, "t", 42, "h"⟩) ["/w/a.txt", "/w/b.txt"]
    (by decide) (by decide)

theorem csvPayload_append (a b : List Ev) :
    csvPayload (a ++ b) = csvPayload a ++ csvPayload b := by
  simp [csvPayload, List.filter_append]

theorem streamOf_append (d : Dest) (a b : List Ev) :
    streamOf d (a ++ b) = streamOf d a ++ streamOf d b := by
  simp [streamOf, List.filter_append]

theorem csvPayload_freshEvents (csvDest : Dest) (statT : String → FStat)
    (total : Nat) :
    ∀ (fsl : List String) (c : Nat),
      csvPayload (freshEvents csvDest statT total fsl c) =
        fsl.map (fun f => csvLine (freshRow f (statT f))) := by
  intro fsl
  induction fsl with
  | nil => intro c; rfl
  | cons f t ih => intro c; simp [freshEvents, csvPayload, List.filter] at ih ⊢; exact ih (c + 1)

theorem streamOf_file_freshEvents_file (statT : String → FStat) (total : Nat) :
    ∀ (fsl : List String) (c : Nat),
      streamOf Dest.file (freshEvents Dest.file statT total fsl c) =
        fsl.map (fun f => csvLine (freshRow f (statT f))) := by
  intro fsl
  induction fsl with
  | nil => intro c; rfl
  | cons f t ih => intro c; simp [freshEvents, streamOf, List.filter] at ih ⊢; exact ih (c + 1)

theorem streamOf_file_freshEvents_out (statT : String → FStat) (total : Nat) :
    ∀ (fsl : List String) (c : Nat),
      streamOf Dest.file (freshEvents Dest.out statT total fsl c) = [] := by
  intro fsl
  induction fsl with
  | nil => intro c; rfl
  | cons f t ih => intro c; simp [freshEvents, streamOf, List.filter] at ih ⊢; exact ih (c + 1)

theorem csvPayload_nil : csvPayload [] = [] := rfl

theorem csvPayload_cons_print (e : Ev) (evs : List Ev)
    (he : e.fromCsvWriter = false) :
    csvPayload (e :: evs) = csvPayload evs := by
  simp [csvPayload, he]

theorem csvPayload_cons_csv (e : Ev) (evs : List Ev)
    (he : e.fromCsvWriter = true) :
    csvPayload (e :: evs) = e.chunk :: csvPayload evs := by
  simp [csvPayload, he]

theorem streamOf_nil (d : Dest) : streamOf d [] = [] := rfl

theorem streamOf_cons_eq (d : Dest) (e : Ev) (evs : List Ev)
    (he : e.dest = d) :
    streamOf d (e :: evs) = e.chunk :: streamOf d evs := by
  simp [streamOf, he]

theorem streamOf_cons_ne (d : Dest) (e : Ev) (evs : List Ev)
    (he : ¬ e.dest = d) :
    streamOf d (e :: evs) = streamOf d evs := by
  simp [streamOf, he]

theorem csvPayload_rowEvents (d : List (String × Row)) :
    csvPayload (d.map (fun pr => (⟨true, Dest.file, csvLine pr.2⟩ : Ev))) =
      d.map (fun pr => csvLine pr.2) := by
  induction d with
  | nil => rfl
  | cons p t ih => simp [csvPayload, List.filter] at ih ⊢; exact ih

theorem streamOf_file_rowEvents (d : List (String × Row)) :
    streamOf Dest.file (d.map (fun pr => (⟨true, Dest.file, csvLine pr.2⟩ : Ev))) =
      d.map (fun pr => csvLine pr.2) := by
  induction d with
  | nil => rfl
  | cons p t ih => simp [streamOf, List.filter] at ih ⊢; exact ih

/-- C8 (amended): with `--outfile`, the CSV payload — what the csv writer
emits — is exactly the header row followed by the run's data rows, and the
file stream receives exactly that payload: the progress counter goes to the
separate standard-output stream and can never interleave with or alter the
CSV bytes.  Without `--outfile`, resume stays disabled — the payload is that
of a full fresh scan regardless of any previous inventory — but it is
emitted on standard output, where (see the counterexample) the progress
lines interleave with it, and no file stream receives anything. -/
theorem C8_streams (fs : Option (List Entry)) (root opath : String)
    (prev : Option (List Row)) (statT : String → FStat) :
    csvPayload (inventoryEvents fs root (some (opath, prev)) statT) =
      headerLine ::
        (inventoryFile prev (totalStat statT) (list_files fs root)).rows.map csvLine ∧
    streamOf Dest.file (inventoryEvents fs root (some (opath, prev)) statT) =
      csvPayload (inventoryEvents fs root (some (opath, prev)) statT) ∧
    csvPayload (inventoryEvents fs root none statT) =
      headerLine ::
        (inventoryFile none (totalStat statT) (list_files fs root)).rows.map csvLine ∧
    streamOf Dest.file (inventoryEvents fs root none statT) = [] := by
  refine ⟨?_, ?_, ?_, ?_⟩
  · cases prev with
    | none =>
      simp only [inventoryEvents, inventoryFile]
      rw [processFiles_total]
      simp [csvPayload_append, csvPayload_nil, csvPayload_cons_print,
        csvPayload_cons_csv, bannerEvents, trailerEvents,
        csvPayload_freshEvents, csvPayload_rowEvents, List.map_map,
        Function.comp_def]
    | some loaded =>
      simp only [inventoryEvents, inventoryFile]
      rw [processFiles_total]
      simp [csvPayload_append, csvPayload_nil, csvPayload_cons_print,
        csvPayload_cons_csv, bannerEvents, trailerEvents,
        csvPayload_freshEvents, csvPayload_rowEvents, List.map_map,
        Function.comp_def]
  · cases prev with
    | none =>
      simp only [inventoryEvents]
      simp [csvPayload_append, streamOf_append, csvPayload_nil, streamOf_nil,
        csvPayload_cons_print, csvPayload_cons_csv, streamOf_cons_eq,
        streamOf_cons_ne, bannerEvents, trailerEvents,
        csvPayload_freshEvents, csvPayload_rowEvents,
        streamOf_file_freshEvents_file, streamOf_file_rowEvents]
    | some loaded =>
      simp only [inventoryEvents]
      simp [csvPayload_append, streamOf_append, csvPayload_nil, streamOf_nil,
        csvPayload_cons_print, csvPayload_cons_csv, streamOf_cons_eq,
        streamOf_cons_ne, bannerEvents, trailerEvents,
        csvPayload_freshEvents, csvPayload_rowEvents,
        streamOf_file_freshEvents_file, streamOf_file_rowEvents]
  · simp only [inventoryEvents, inventoryFile]
    rw [processFiles_total]
    simp [csvPayload_append, csvPayload_nil, csvPayload_cons_print,
      csvPayload_cons_csv, bannerEvents, trailerEvents,
      csvPayload_freshEvents, List.map_map, Function.comp_def]
  · simp only [inventoryEvents]
    simp [streamOf_append, streamOf_nil, streamOf_cons_eq, streamOf_cons_ne,
      bannerEvents, trailerEvents, streamOf_file_freshEvents_out]

theorem isPrefixOf_iff_append :
    ∀ (b s : List String), b.isPrefixOf s = true ↔ ∃ post, s = b ++ post := by
  intro b
  induction b with
  | nil => intro s; simp [List.isPrefixOf]
  | cons x bt ih =>
    intro s
    cases s with
    | nil => simp [List.isPrefixOf]
    | cons y st =>
      simp only [List.isPrefixOf, Bool.and_eq_true, beq_iff_eq]
      rw [ih st]
      constructor
      · rintro ⟨rfl, post, rfl⟩
        exact ⟨post, rfl⟩
      · rintro ⟨post, hp⟩
        injection hp with h1 h2
        exact ⟨h1.symm, post, h2⟩

theorem containsBlock_iff :
    ∀ (stream block : List String),
      (containsBlock stream block = true ↔
        ∃ pre post, stream = pre ++ block ++ post) := by
  intro stream
  induction stream with
  | nil =>
    intro block
    constructor
    · intro h
      have hb : block = [] := by
        simpa [containsBlock, List.isEmpty_iff] using h
      exact ⟨[], [], by simp [hb]⟩
    · rintro ⟨pre, post, h⟩
      cases pre with
      | cons _ _ => simp at h
      | nil =>
        cases block with
        | cons _ _ => simp at h
        | nil => simp [containsBlock]
  | cons x t ih =>
    intro block
    simp only [containsBlock, Bool.or_eq_true]
    rw [isPrefixOf_iff_append, ih]
    constructor
    · rintro (⟨post, hp⟩ | ⟨pre, post, hp⟩)
      · exact ⟨[], post, by simpa using hp⟩
      · exact ⟨x :: pre, post, by simp [hp]⟩
    · rintro ⟨pre, post, hp⟩
      cases pre with
      | nil => exact Or.inl ⟨post, by simpa using hp⟩
      | cons p pt =>
        right
        injection hp with h1 h2
        exact ⟨pt, post, h2⟩

/-- C8 counterexample: without `--outfile` the CSV goes to standard output,
and on a two-file scan the progress counter is printed between the two data
rows: the CSV payload does not occur contiguously anywhere in the
standard-output stream, so the progress output interleaves with — and a
consumer of the stream cannot recover — the CSV bytes, refuting the claim
that the payload is unaffected in this mode. -/
theorem C8_stdout_interleaves_counterexample :
    ¬ ∃ pre post,
      streamOf Dest.out (inventoryEvents (some [Entry.file "a", Entry.file "b"])
          "/r" none (fun _ => ⟨0, "d", 1, "m"⟩)) =
        pre ++ csvPayload (inventoryEvents (some [Entry.file "a", Entry.file "b"])
          "/r" none (fun _ => ⟨0, "d", 1, "m"⟩)) ++ post := by
  rintro ⟨pre, post, h⟩
  have hb : containsBlock
      (streamOf Dest.out (inventoryEvents (some [Entry.file "a", Entry.file "b"])
        "/r" none (fun _ => ⟨0, "d", 1, "m"⟩)))
      (csvPayload (inventoryEvents (some [Entry.file "a", Entry.file "b"])
        "/r" none (fun _ => ⟨0, "d", 1, "m"⟩))) = true :=
    (containsBlock_iff _ _).mpr ⟨pre, post, h⟩
  have hf : containsBlock
      (streamOf Dest.out (inventoryEvents (some [Entry.file "a", Entry.file "b"])
        "/r" none (fun _ => ⟨0, "d", 1, "m"⟩)))
      (csvPayload (inventoryEvents (some [Entry.file "a", Entry.file "b"])
        "/r" none (fun _ => ⟨0, "d", 1, "m"⟩))) = false := by
    simp only [inventoryEvents, list_files, filesUnder, dirFiles, subdirFiles]
    decide
  rw [hf] at hb
  cases hb
